import Mathlib

/-!
Verification of the seq2seq forward-pass core
(`tensorflow/python/ops/seq2seq.py`) against its specification.

The Python source is shallowly embedded below.  Tensors that the claims
inspect element-wise are modelled as functions out of `Fin`, per-step
sequences as `List`s, float scalars as `ℚ` where only field operations and
comparisons occur and as `ℝ` where transcendental functions
(`exp`, `sqrt`, `tanh`) appear.  Fallible code returns `Except` with a
structured error type mirroring the distinct `ValueError` messages.
Randomness (the scheduled-sampling uniform draws) is an injected stream
`rand : ℕ → ℚ`, matching the spec's injectable-generator contract.
-/

/-! ### `rnn_decoder` (seq2seq.py lines 122-177) and
    `_extract_argmax_and_embed` (lines 89-114) -/

/-- Embedding of the nested Python function `inner_loop(prev, inp, i, feed_prev)`
from `rnn_decoder` (lines 159-162): when `feed_prev` holds and a previous
output exists, the input is replaced by `loop_function(prev, i)`; otherwise
the supplied input is kept. -/
def inner_loop {α β : Type} (loop_function : Option (β → ℕ → α))
    (prev : Option β) (inp : α) (i : ℕ) (feed_prev : Bool) : α :=
  match feed_prev, prev, loop_function with
  | true, some pv, some lf => lf pv i
  | _, _, _ => inp

/-- Input selection of one `rnn_decoder` step (lines 164-173).  When
`feed_prev_p` is set (scheduled sampling), a uniform draw `rv = rand i` is
taken and the graph is
`cond(loop_function set ∧ rv < p, inner_loop feed_prev:=False,
inner_loop feed_prev:=True)` — the two branches exactly as they appear in
the source (lines 168-170).  When `feed_prev_p` is absent, the input is
`inner_loop` with `feed_prev` iff a loop function was supplied. -/
def rnn_decoder_select {α β : Type} (loop_function : Option (β → ℕ → α))
    (feed_prev_p : Option ℚ) (rand : ℕ → ℚ)
    (prev : Option β) (inp : α) (i : ℕ) : α :=
  match feed_prev_p with
  | some p =>
    if loop_function.isSome ∧ rand i < p then
      inner_loop loop_function prev inp i false
    else
      inner_loop loop_function prev inp i true
  | none => inner_loop loop_function prev inp i loop_function.isSome

/-- The per-step loop of `rnn_decoder` (lines 151-177): select the input,
advance the cell, record the output, and remember it as `prev`. -/
def rnn_decoder_loop {α β σ : Type} (cell : α → σ → β × σ)
    (loop_function : Option (β → ℕ → α)) (feed_prev_p : Option ℚ)
    (rand : ℕ → ℚ) :
    List α → σ → Option β → ℕ → List β × σ
  | [], state, _, _ => ([], state)
  | inp :: rest, state, prev, i =>
    let inp := rnn_decoder_select loop_function feed_prev_p rand prev inp i
    let os := cell inp state
    let r := rnn_decoder_loop cell loop_function feed_prev_p rand rest os.2
      (some os.1) (i + 1)
    (os.1 :: r.1, r.2)

/-- Embedding of `rnn_decoder` (seq2seq.py lines 122-177).  `cell` is the
abstract cell contract `(input, state) -> (output, new_state)`; variable
scoping is graph-construction bookkeeping with no forward-value effect and
is not modelled. -/
def rnn_decoder {α β σ : Type} (decoder_inputs : List α) (initial_state : σ)
    (cell : α → σ → β × σ) (loop_function : Option (β → ℕ → α))
    (feed_prev_p : Option ℚ) (rand : ℕ → ℚ) : List β × σ :=
  rnn_decoder_loop cell loop_function feed_prev_p rand
    decoder_inputs initial_state none 0

/-- Index of the first maximum of a list, accumulator form
(models `math_ops.argmax(prev, 1)` for one batch row). -/
def argmaxAux : List ℚ → ℕ → ℕ → ℚ → ℕ
  | [], _, best, _ => best
  | x :: rest, i, best, bestv =>
    if bestv < x then argmaxAux rest (i + 1) i x
    else argmaxAux rest (i + 1) best bestv

/-- `argmax` over one logits row (first index attaining the maximum). -/
def argmax : List ℚ → ℕ
  | [] => 0
  | x :: rest => argmaxAux rest 1 0 x

/-- Embedding of the loop function built by `_extract_argmax_and_embed`
(seq2seq.py lines 89-114) for one batch row: optionally apply the output
projection to the previous output, take the argmax symbol, and look up its
embedding.  `update_embedding` only stops gradients and has no
forward-value effect. -/
def extract_argmax_and_embed (embedding : ℕ → List ℚ)
    (output_projection : Option (List ℚ → List ℚ)) :
    List ℚ → ℕ → List ℚ :=
  fun prev _ =>
    let prev := match output_projection with
      | some proj => proj prev
      | none => prev
    embedding (argmax prev)

/-- Identity cell used to observe the decoder inputs directly: its output
at each step is exactly the (selected) input of that step. -/
def idCell : List ℚ → Unit → List ℚ × Unit := fun inp s => (inp, s)

/-- Two-symbol embedding table: symbol 0 ↦ [1, 0], symbol 1 ↦ [0, 1]. -/
def embTable : ℕ → List ℚ := fun n => if n = 0 then [1, 0] else [0, 1]

/-- Claim C1: with scheduled sampling enabled and `feed_prev_probability = 1`
every uniform draw `r ∈ [0, 1)` (here `r = 0`) satisfies `r < 1`, so by the
claim the step-1 decoder input must be the embedding of the argmax of step
0's output, namely `extract_argmax_and_embed embTable none [0, 1] 1 = [0, 1]`.
The code instead takes the `cond` branch with `feed_prev=False` (the two
lambdas on seq2seq.py lines 169-170 are swapped) and feeds the ground-truth
input `[1, 0]`: under the identity cell the step-1 output is `[1, 0] ≠ [0, 1]`.
The claim describes the intended scheduled sampling of the cited paper and
the meaning of the source's own `feed_prev` variable; the code inverts it. -/
theorem C1_scheduled_sampling_branches_swapped :
    rnn_decoder [[0, 1], [1, 0]] () idCell
        (some (extract_argmax_and_embed embTable none)) (some 1)
        (fun _ => 0)
      = ([[0, 1], [1, 0]], ())
    ∧ extract_argmax_and_embed embTable none [0, 1] 1 = [0, 1]
    ∧ ([1, 0] : List ℚ) ≠ [0, 1] := by
  refine ⟨by decide, by decide, by decide⟩

/-! ### The `attention` closure of `attention_decoder` (seq2seq.py lines
    905-930), per head and per batch element -/

/-- Pre-softmax attention score for one head and one batch row
(line 920-921): `s_t = Σ_j v_j * tanh(hidden_features_t_j + y_j)`, where
`hf` is the head's convolved `attention_states` and `y` the projected
query. -/
noncomputable def attnScore {n k : ℕ} (v : Fin k → ℝ)
    (hf : Fin n → Fin k → ℝ) (y : Fin k → ℝ) (t : Fin n) : ℝ :=
  ∑ j, v j * Real.tanh (hf t j + y j)

/-- Source-mask application (line 923-924): scores are multiplied
elementwise by the mask before the softmax. -/
def maskScores {n : ℕ} (s m : Fin n → ℝ) (t : Fin n) : ℝ := s t * m t

/-- Softmax over the source-length axis (line 925), for one batch row. -/
noncomputable def softmax {n : ℕ} (s : Fin n → ℝ) (t : Fin n) : ℝ :=
  Real.exp (s t) / ∑ u, Real.exp (s u)

/-- The per-position attention weights `a` of one head for one batch row,
as computed on lines 917-925: scores, optional mask multiplication, then
softmax. -/
noncomputable def attentionWeights {n k : ℕ} (v : Fin k → ℝ)
    (hf : Fin n → Fin k → ℝ) (y : Fin k → ℝ)
    (src_mask : Option (Fin n → ℝ)) : Fin n → ℝ :=
  match src_mask with
  | some m => softmax (maskScores (attnScore v hf y) m)
  | none => softmax (attnScore v hf y)

/-- The attention-weighted context vector `d` of one head (lines 927-929):
`d_c = Σ_t a_t * hidden_t_c`. -/
noncomputable def attentionContext {n k d : ℕ} (v : Fin k → ℝ)
    (hf : Fin n → Fin k → ℝ) (y : Fin k → ℝ)
    (src_mask : Option (Fin n → ℝ)) (hidden : Fin n → Fin d → ℝ)
    (c : Fin d) : ℝ :=
  ∑ t, attentionWeights v hf y src_mask t * hidden t c

/-- The softmax is strictly positive and sums to 1 over a nonempty axis. -/
theorem softmax_pos_sum_one {n : ℕ} (s : Fin (n + 1) → ℝ) :
    (∀ t, 0 < softmax s t) ∧ (∑ t, softmax s t) = 1 := by
  have hZ : 0 < ∑ u, Real.exp (s u) :=
    Finset.sum_pos (fun u _ => Real.exp_pos (s u)) Finset.univ_nonempty
  constructor
  · intro t
    exact div_pos (Real.exp_pos (s t)) hZ
  · unfold softmax
    rw [← Finset.sum_div]
    exact div_self (ne_of_gt hZ)

/-- Concrete two-position source mask: position 0 open, position 1 masked. -/
def maskC2 : Fin 2 → ℝ := fun t => if t = 0 then 1 else 0

/-- All attention weights are `1/2` in the concrete masked configuration
with one head, zero score vector `v`, zero features and zero query: the
mask only multiplies the (zero) scores, and the softmax of an all-zero
score row over two positions is `(1/2, 1/2)`. -/
theorem attentionWeights_maskC2_eq_half (t : Fin 2) :
    attentionWeights (fun _ : Fin 1 => (0 : ℝ)) (fun _ _ => 0) (fun _ => 0)
      (some maskC2) t = 1 / 2 := by
  simp only [attentionWeights, softmax, maskScores, attnScore]
  norm_num [Fin.sum_univ_two, Real.exp_zero]

/-- Claim C2 is false as stated: at the concrete input with two source
positions, one head, zero `v`, zero features, zero query and the mask
`maskC2` (position 1 masked out), the weights do sum to 1 but the weight
at the masked position is `exp(0)/(exp(0)+exp(0)) = 1/2 ≠ 0`: the source
multiplies the mask into the *scores* before the softmax (seq2seq.py lines
923-925), and the softmax then redistributes positive mass everywhere. -/
theorem C2_masked_weight_not_zero :
    ¬ ((∑ t, attentionWeights (fun _ : Fin 1 => (0 : ℝ)) (fun _ _ => 0)
          (fun _ => 0) (some maskC2) t) = 1
      ∧ ∀ t, maskC2 t = 0 →
          attentionWeights (fun _ : Fin 1 => (0 : ℝ)) (fun _ _ => 0)
            (fun _ => 0) (some maskC2) t = 0) := by
  intro h
  have h1 := h.2 1 (by norm_num [maskC2])
  rw [attentionWeights_maskC2_eq_half 1] at h1
  norm_num at h1

/-- Claim C2 (amended): for every query, every head and every batch row,
the attention weights returned by the `attention` closure sum to 1 along
the (nonempty) source-length axis; but because the supplied `src_mask`
multiplies the pre-softmax scores rather than the post-softmax weights,
every weight — including those at masked positions — is strictly
positive, not zero. -/
theorem C2_attention_weights_sum_one_masked_positive {n k : ℕ}
    (v : Fin k → ℝ) (hf : Fin (n + 1) → Fin k → ℝ) (y : Fin k → ℝ)
    (mask : Option (Fin (n + 1) → ℝ)) :
    (∑ t, attentionWeights v hf y mask t) = 1
    ∧ ∀ t, 0 < attentionWeights v hf y mask t := by
  cases mask with
  | some m =>
    exact ⟨(softmax_pos_sum_one (maskScores (attnScore v hf y) m)).2,
           (softmax_pos_sum_one (maskScores (attnScore v hf y) m)).1⟩
  | none =>
    exact ⟨(softmax_pos_sum_one (attnScore v hf y)).2,
           (softmax_pos_sum_one (attnScore v hf y)).1⟩

/-! ### The latent-variable tail of `embedding_rnn_vae_seq2seq`
    (seq2seq.py lines 559-579) -/

/-- Elementwise KL value of line 564:
`kl = -0.5 * (1 + log_var - mean^2 - exp(log_var))`. -/
noncomputable def kl_elem (mean logvar : ℝ) : ℝ :=
  -0.5 * (1 + logvar - mean ^ 2 - Real.exp logvar)

/-- Line 565, `kl_step_av = tf.reduce_mean(kl_loss, [0])`: the mean of the
`[batch, latent]` KL matrix along axis 0 — the batch axis — leaving one
value per latent unit. -/
noncomputable def kl_step_av (B L : ℕ) (kl : Fin B → Fin L → ℝ)
    (j : Fin L) : ℝ :=
  (∑ i, kl i j) / B

/-- Lines 566-569: when `kl_min > 0`, floor each per-latent-unit mean at
`kl_min` with `tf.maximum` and sum with `tf.reduce_sum`; otherwise just
sum the per-unit means. -/
noncomputable def kl_obj_core (B L : ℕ) (kl_min : ℝ)
    (kl : Fin B → Fin L → ℝ) : ℝ :=
  if 0 < kl_min then ∑ j, max (kl_step_av B L kl j) kl_min
  else ∑ j, kl_step_av B L kl j

/-- Lines 570-571: when an annealing coefficient is supplied, scale the
aggregated objective by it. -/
noncomputable def kl_obj (B L : ℕ) (kl_min : ℝ) (anneal_scale : Option ℝ)
    (kl : Fin B → Fin L → ℝ) : ℝ :=
  match anneal_scale with
  | some a => a * kl_obj_core B L kl_min kl
  | none => kl_obj_core B L kl_min kl

/-- The aggregation exactly as claim C3 words it (for comparison with the
code): mean of each batch element across the latent dimension, then (when
`kl_min > 0`) floor each batch element at `kl_min` before summing across
the batch, then optional annealing scale. -/
noncomputable def kl_obj_claimed (B L : ℕ) (kl_min : ℝ)
    (anneal_scale : Option ℝ) (kl : Fin B → Fin L → ℝ) : ℝ :=
  let per_example := fun i : Fin B => (∑ j, kl i j) / L
  let core :=
    if 0 < kl_min then ∑ i, max (per_example i) kl_min
    else ∑ i, per_example i
  match anneal_scale with
  | some a => a * core
  | none => core

/-- The outputs of the latent tail that the claims observe: the latent
vector `z` handed to the decoder initial-state projection, the aggregated
KL objective, and the (possibly cleared) scheduled-sampling probability. -/
structure VAELatentOut (B L : ℕ) where
  z : Fin B → Fin L → ℝ
  kl : ℝ
  feed_prev_p : Option ℚ

/-- Embedding of seq2seq.py lines 561-579 (after the projections of lines
559-560, whose outputs `z_mean`, `z_log_var` are taken as inputs here):
reparameterised sample `z = z_mean + sqrt(exp(z_log_var)) * eps`, the KL
objective built from `z_mean`/`z_log_var` by `kl_obj`, then the two
overrides in source order — `z = z_mean` when `sample_mean ∧
feed_previous` (lines 573-575), and `z = latent_state` with
`feed_prev_p = None` when a latent state is supplied (lines 576-579). -/
noncomputable def vae_latent (B L : ℕ)
    (z_mean z_log_var eps : Fin B → Fin L → ℝ) (kl_min : ℝ)
    (anneal_scale : Option ℝ) (sample_mean feed_previous : Bool)
    (latent_state : Option (Fin B → Fin L → ℝ))
    (feed_prev_p : Option ℚ) : VAELatentOut B L :=
  let z := fun i j =>
    z_mean i j + Real.sqrt (Real.exp (z_log_var i j)) * eps i j
  let klo := kl_obj B L kl_min anneal_scale
    (fun i j => kl_elem (z_mean i j) (z_log_var i j))
  let z := if sample_mean && feed_previous then z_mean else z
  match latent_state with
  | some ls => ⟨ls, klo, none⟩
  | none => ⟨z, klo, feed_prev_p⟩

/-- Concrete KL matrix for one batch element and two latent units, built
from the distribution parameters `mean = (0, √2)`, `log_var = (0, 0)`:
its entries are `kl_elem 0 0 = 0` and `kl_elem (√2) 0 = 1`. -/
noncomputable def klMatC3 : Fin 1 → Fin 2 → ℝ :=
  fun _ j => kl_elem (if j = 0 then 0 else Real.sqrt 2) 0

/-- Claim C3 is false as stated: on the KL matrix `klMatC3` (batch 1,
latent 2, entries 0 and 1) with `kl_min = 1/2` and no annealing, the code
averages over the *batch* axis (`reduce_mean(kl_loss, [0])`, line 565),
floors each *latent unit* and sums over latent units, giving
`max(0, 1/2) + max(1, 1/2) = 3/2`; the claimed aggregation (mean across
the latent dimension, floor per batch element, sum across batch) gives
`max(1/2, 1/2) = 1/2`. -/
theorem C3_kl_aggregation_counterexample :
    kl_obj 1 2 (1 / 2) none klMatC3 ≠ kl_obj_claimed 1 2 (1 / 2) none klMatC3 := by
  have h0 : kl_elem 0 0 = 0 := by
    norm_num [kl_elem, Real.exp_zero]
  have h1 : kl_elem (Real.sqrt 2) 0 = 1 := by
    have hs : Real.sqrt 2 ^ 2 = 2 := Real.sq_sqrt (by norm_num)
    norm_num [kl_elem, Real.exp_zero, hs]
  have hm0 : ∀ i : Fin 1, klMatC3 i 0 = 0 := by
    intro i; simpa [klMatC3] using h0
  have hm1 : ∀ i : Fin 1, klMatC3 i 1 = 1 := by
    intro i; simpa [klMatC3] using h1
  simp only [kl_obj, kl_obj_core, kl_obj_claimed, kl_step_av]
  rw [if_pos (by norm_num : (0 : ℝ) < 1 / 2),
      if_pos (by norm_num : (0 : ℝ) < 1 / 2)]
  simp only [Fin.sum_univ_two, Fin.sum_univ_one]
  rw [hm0 0, hm1 0]
  norm_num

/-- Claim C3 (amended): the per-unit KL values are aggregated by taking
the mean across the *batch* dimension (one mean per latent unit), then —
when `kl_min > 0` — flooring each per-unit mean at `kl_min` before summing
across the latent units, and finally scaling by the annealing coefficient
when one is supplied.  Stated against the full latent tail: the KL
objective returned by `vae_latent` equals that formula applied to the
elementwise KL of the distribution parameters. -/
theorem C3_kl_aggregation_amended (B L : ℕ)
    (z_mean z_log_var eps : Fin B → Fin L → ℝ) (kl_min : ℝ)
    (anneal_scale : Option ℝ) (sample_mean feed_previous : Bool)
    (latent_state : Option (Fin B → Fin L → ℝ)) (feed_prev_p : Option ℚ) :
    (vae_latent B L z_mean z_log_var eps kl_min anneal_scale sample_mean
        feed_previous latent_state feed_prev_p).kl =
      (match anneal_scale with | some a => a | none => 1) *
        (if 0 < kl_min then
          ∑ j, max ((∑ i, kl_elem (z_mean i j) (z_log_var i j)) / B) kl_min
        else
          ∑ j, (∑ i, kl_elem (z_mean i j) (z_log_var i j)) / B) := by
  cases latent_state with
  | some ls =>
    cases anneal_scale with
    | some a => simp [vae_latent, kl_obj, kl_obj_core, kl_step_av]
    | none => simp [vae_latent, kl_obj, kl_obj_core, kl_step_av]
  | none =>
    cases anneal_scale with
    | some a => simp [vae_latent, kl_obj, kl_obj_core, kl_step_av]
    | none => simp [vae_latent, kl_obj, kl_obj_core, kl_step_av]

/-- Claim C8: the elementwise KL value of line 564 is non-negative for all
finite real `mean` and `log_var`, since `1 + log_var ≤ exp(log_var)` and
`mean^2 ≥ 0`. -/
theorem C8_kl_elem_nonneg (mean logvar : ℝ) : 0 ≤ kl_elem mean logvar := by
  have he := Real.add_one_le_exp logvar
  have hm := sq_nonneg mean
  unfold kl_elem
  nlinarith

/-- Claim C9: when `latent_state` is supplied, the latent vector handed to
the decoder's initial-state projection is exactly the supplied tensor
(line 578), while the returned KL objective is still the one computed from
the sampled distribution parameters `z_mean`, `z_log_var` (lines 564-571)
— identical to the KL that would be returned with no `latent_state` — so
the KL term is unaffected by the override. -/
theorem C9_latent_state_override (B L : ℕ)
    (z_mean z_log_var eps : Fin B → Fin L → ℝ) (kl_min : ℝ)
    (anneal_scale : Option ℝ) (sample_mean feed_previous : Bool)
    (ls : Fin B → Fin L → ℝ) (feed_prev_p : Option ℚ) :
    (vae_latent B L z_mean z_log_var eps kl_min anneal_scale sample_mean
        feed_previous (some ls) feed_prev_p).z = ls
    ∧ (vae_latent B L z_mean z_log_var eps kl_min anneal_scale sample_mean
        feed_previous (some ls) feed_prev_p).kl =
        kl_obj B L kl_min anneal_scale
          (fun i j => kl_elem (z_mean i j) (z_log_var i j))
    ∧ (vae_latent B L z_mean z_log_var eps kl_min anneal_scale sample_mean
        feed_previous (some ls) feed_prev_p).kl =
      (vae_latent B L z_mean z_log_var eps kl_min anneal_scale sample_mean
        feed_previous none feed_prev_p).kl := by
  exact ⟨rfl, rfl, rfl⟩

/-! ### `sequence_loss_by_example` (seq2seq.py lines 1401-1444) and
    `sequence_loss` (lines 1447-1478) -/

/-- The single `ValueError` of `sequence_loss_by_example` (lines
1422-1424), carrying the three lengths of its message. -/
inductive SeqLossError where
  | lengthMismatch (nlogits nweights ntargets : ℕ) : SeqLossError
deriving DecidableEq

/-- Embedding of `sequence_loss_by_example` (lines 1401-1444).  One
decoder step holds a whole batch: `crossent` abstracts the per-step
cross-entropy (`sparse_softmax_cross_entropy_with_logits` by default, or
the caller-supplied `softmax_loss_function`), taking a step's logits and
targets to a batch-sized loss vector.  Per step the cross-entropy is
multiplied by the step's weight (line 1438), the per-step vectors are
summed with `add_n` (line 1439), and with `average_across_timesteps` the
sum is divided by the total weight plus `1e-12` (lines 1440-1443). -/
def sequence_loss_by_example {L T : Type} (B : ℕ)
    (crossent : L → T → Fin B → ℚ) (logits : List L) (targets : List T)
    (weights : List (Fin B → ℚ)) (average_across_timesteps : Bool) :
    Except SeqLossError (Fin B → ℚ) :=
  if targets.length ≠ logits.length ∨ weights.length ≠ logits.length then
    .error (.lengthMismatch logits.length weights.length targets.length)
  else
    let log_perp_list := (logits.zip (targets.zip weights)).map
      (fun ltw => fun b => crossent ltw.1 ltw.2.1 b * ltw.2.2 b)
    let log_perps := fun b => (log_perp_list.map (fun f => f b)).sum
    if average_across_timesteps then
      .ok (fun b =>
        log_perps b / ((weights.map (fun w => w b)).sum + 1 / 10 ^ 12))
    else
      .ok log_perps

/-- Embedding of `sequence_loss` (lines 1447-1478): `reduce_sum` of the
per-example losses over the batch, divided by the batch size when
`average_across_batch` is set. -/
def sequence_loss {L T : Type} (B : ℕ) (crossent : L → T → Fin B → ℚ)
    (logits : List L) (targets : List T) (weights : List (Fin B → ℚ))
    (average_across_timesteps average_across_batch : Bool) :
    Except SeqLossError ℚ :=
  match sequence_loss_by_example B crossent logits targets weights
      average_across_timesteps with
  | .error e => .error e
  | .ok lp =>
    let cost := ∑ b, lp b
    if average_across_batch then .ok (cost / B) else .ok cost

/-- The per-example loss exactly as the spec words it: for batch element
`b`, the sum over steps `i` of the step's cross-entropy times the step's
weight, divided — when `average_across_timesteps` — by the sum of the
weights plus the epsilon `1e-12`.  Stated with positional indexing
(`getD`, whose defaults are irrelevant within bounds) rather than the
source's zip pipeline. -/
def per_example_loss_spec {L T : Type} (B : ℕ)
    (crossent : L → T → Fin B → ℚ) (logits : List L) (targets : List T)
    (weights : List (Fin B → ℚ)) (aat : Bool) (dL : L) (dT : T)
    (dw : Fin B → ℚ) (b : Fin B) : ℚ :=
  let S := ∑ i ∈ Finset.range logits.length,
    crossent (logits.getD i dL) (targets.getD i dT) b * (weights.getD i dw) b
  if aat then
    S / ((∑ i ∈ Finset.range logits.length, (weights.getD i dw) b) + 1 / 10 ^ 12)
  else S

/-- The batch loss exactly as the spec words it: sum of the per-example
losses over the batch, divided by the batch size when
`average_across_batch` is set. -/
def batch_loss_spec {L T : Type} (B : ℕ) (crossent : L → T → Fin B → ℚ)
    (logits : List L) (targets : List T) (weights : List (Fin B → ℚ))
    (aat aab : Bool) (dL : L) (dT : T) (dw : Fin B → ℚ) : ℚ :=
  let c := ∑ b, per_example_loss_spec B crossent logits targets weights aat
    dL dT dw b
  if aab then c / B else c

/-- The zip pipeline of lines 1428-1439, evaluated at one batch element,
equals the positionally indexed sum over steps. -/
theorem perp_list_sum_eq {L T : Type} {B : ℕ}
    (crossent : L → T → Fin B → ℚ) (dL : L) (dT : T) (dw : Fin B → ℚ) :
    ∀ (logits : List L) (targets : List T) (weights : List (Fin B → ℚ)),
      targets.length = logits.length → weights.length = logits.length →
      ∀ b : Fin B,
      (((logits.zip (targets.zip weights)).map
          (fun ltw => fun b => crossent ltw.1 ltw.2.1 b * ltw.2.2 b)).map
        (fun f => f b)).sum
        = ∑ i ∈ Finset.range logits.length,
            crossent (logits.getD i dL) (targets.getD i dT) b *
              (weights.getD i dw) b
  | [], _, _, _, _, _ => by simp
  | l :: ls, [], _, ht, _, _ => by simp at ht
  | l :: ls, t :: ts, [], _, hw, _ => by simp at hw
  | l :: ls, t :: ts, w :: ws, ht, hw, b => by
    simp only [List.zip_cons_cons, List.map_cons, List.sum_cons,
      List.length_cons]
    rw [Finset.sum_range_succ']
    simp only [List.getD_cons_succ, List.getD_cons_zero]
    rw [perp_list_sum_eq crossent dL dT dw ls ts ws (by simpa using ht)
      (by simpa using hw) b]
    ring

/-- The total label weight of lines 1441-1442, evaluated at one batch
element, equals the positionally indexed sum over steps. -/
theorem weights_total_eq {B : ℕ} (dw : Fin B → ℚ) :
    ∀ (weights : List (Fin B → ℚ)) (b : Fin B),
      (weights.map (fun w => w b)).sum
        = ∑ i ∈ Finset.range weights.length, (weights.getD i dw) b
  | [], _ => by simp
  | w :: ws, b => by
    simp only [List.map_cons, List.sum_cons, List.length_cons]
    rw [Finset.sum_range_succ']
    simp only [List.getD_cons_succ, List.getD_cons_zero]
    rw [weights_total_eq dw ws b]
    ring

/-- Claim C4: with equal-length inputs, `sequence_loss_by_example`
returns, for each batch element, the sum over steps of the step's
cross-entropy times the step's weight — divided, when
`average_across_timesteps` is set, by the sum of the weights plus `1e-12`
(so all-zero weights never divide by zero) — and `sequence_loss` returns
the batch sum of those per-example losses, divided by the batch size when
`average_across_batch` is set. -/
theorem C4_sequence_loss_formula {L T : Type} (B : ℕ)
    (crossent : L → T → Fin B → ℚ) (logits : List L) (targets : List T)
    (weights : List (Fin B → ℚ)) (aat aab : Bool) (dL : L) (dT : T)
    (dw : Fin B → ℚ) (ht : targets.length = logits.length)
    (hw : weights.length = logits.length) :
    sequence_loss_by_example B crossent logits targets weights aat =
      .ok (per_example_loss_spec B crossent logits targets weights aat
        dL dT dw)
    ∧ sequence_loss B crossent logits targets weights aat aab =
      .ok (batch_loss_spec B crossent logits targets weights aat aab
        dL dT dw) := by
  have hnot : ¬ (targets.length ≠ logits.length ∨
      weights.length ≠ logits.length) := by
    simp [ht, hw]
  have hmain : sequence_loss_by_example B crossent logits targets weights aat
      = .ok (per_example_loss_spec B crossent logits targets weights aat
        dL dT dw) := by
    unfold sequence_loss_by_example
    rw [if_neg hnot]
    cases aat with
    | false =>
      simp only [Bool.false_eq_true, if_false]
      refine congrArg Except.ok (funext fun b => ?_)
      rw [perp_list_sum_eq crossent dL dT dw logits targets weights ht hw b]
      simp [per_example_loss_spec]
    | true =>
      simp only [if_true]
      refine congrArg Except.ok (funext fun b => ?_)
      rw [perp_list_sum_eq crossent dL dT dw logits targets weights ht hw b,
        weights_total_eq dw weights b, hw]
      simp [per_example_loss_spec]
  refine ⟨hmain, ?_⟩
  unfold sequence_loss
  rw [hmain]
  cases aab with
  | false => simp [batch_loss_spec]
  | true => simp [batch_loss_spec]

/-- Concrete cross-entropy stand-in for the witness: the loss of logits
`l` against target `t` is `l + t`, for every batch element. -/
def crossentWit : ℕ → ℕ → Fin 1 → ℚ := fun l t _ => ((l + t : ℕ) : ℚ)

/-- Witness for C4: at `logits = [2]`, `targets = [3]`, `weights = [1]`
the hypotheses hold and the theorem applies. -/
theorem C4_sequence_loss_formula_witness :
    ([3] : List ℕ).length = ([2] : List ℕ).length
    ∧ (sequence_loss_by_example 1 crossentWit [2] [3] [fun _ => 1] false =
        .ok (per_example_loss_spec 1 crossentWit [2] [3] [fun _ => 1] false
          0 0 (fun _ => 0))
      ∧ sequence_loss 1 crossentWit [2] [3] [fun _ => 1] false false =
        .ok (batch_loss_spec 1 crossentWit [2] [3] [fun _ => 1] false false
          0 0 (fun _ => 0))) :=
  ⟨rfl, C4_sequence_loss_formula 1 crossentWit [2] [3] [fun _ => 1]
    false false 0 0 (fun _ => 0) rfl rfl⟩

/-- Claim C5: `sequence_loss_by_example` signals its configuration error
exactly when `len(logits) ≠ len(targets)` or `len(weights) ≠ len(logits)`
(the check of lines 1422-1424). -/
theorem C5_error_iff_length_mismatch {L T : Type} (B : ℕ)
    (crossent : L → T → Fin B → ℚ) (logits : List L) (targets : List T)
    (weights : List (Fin B → ℚ)) (aat : Bool) :
    (∃ e, sequence_loss_by_example B crossent logits targets weights aat =
      .error e)
      ↔ (logits.length ≠ targets.length ∨
          weights.length ≠ logits.length) := by
  unfold sequence_loss_by_example
  by_cases h : targets.length ≠ logits.length ∨
      weights.length ≠ logits.length
  · rw [if_pos h]
    constructor
    · intro _
      rcases h with h | h
      · exact Or.inl (Ne.symm h)
      · exact Or.inr h
    · intro _
      exact ⟨_, rfl⟩
  · rw [if_neg h]
    push_neg at h
    obtain ⟨h1, h2⟩ := h
    constructor
    · rintro ⟨e, he⟩
      cases aat <;> simp_all
    · rintro (hc | hc)
      · exact absurd h1.symm hc
      · exact absurd h2 hc

/-! ### `model_with_buckets_states` (seq2seq.py lines 1481-1521) and
    `model_with_buckets` (lines 1523-1566) -/

/-- A per-bucket loss value: a scalar from `sequence_loss`, or a
batch-sized vector from `sequence_loss_by_example` when
`per_example_loss` is set. -/
inductive LossVal (B : ℕ) where
  | scalar (x : ℚ) : LossVal B
  | perExample (f : Fin B → ℚ) : LossVal B

/-- The distinct fatal errors of `model_with_buckets_states`: the
`IndexError` of `buckets[-1]` on an empty bucket list, the three entry
`ValueError`s of lines 1485-1493, and the propagated length-mismatch
`ValueError` of `sequence_loss_by_example`. -/
inductive BucketError where
  | emptyBuckets : BucketError
  | encoderTooShort (len need : ℕ) : BucketError
  | targetsTooShort (len need : ℕ) : BucketError
  | weightsTooShort (len need : ℕ) : BucketError
  | lossLengthMismatch (nlogits nweights ntargets : ℕ) : BucketError
deriving DecidableEq

/-- A `SeqLossError` escaping from a per-bucket loss call propagates
unchanged through the bucket loop. -/
def liftSeqErr : SeqLossError → BucketError
  | .lengthMismatch a b c => .lossLengthMismatch a b c

/-- The per-bucket loss of lines 1509-1516: `sequence_loss_by_example`
(with its default `average_across_timesteps=True`) when
`per_example_loss` is set, else `sequence_loss` (defaults
`average_across_timesteps=True`, `average_across_batch=True`), both on
the targets and weights truncated to the bucket's decoder length. -/
def bucketLoss {T O : Type} (B : ℕ) (crossent : O → T → Fin B → ℚ)
    (targets : List T) (weights : List (Fin B → ℚ))
    (per_example_loss : Bool) (out : List O) (b2 : ℕ) :
    Except SeqLossError (LossVal B) :=
  if per_example_loss then
    (sequence_loss_by_example B crossent out (targets.take b2)
      (weights.take b2) true).map .perExample
  else
    (sequence_loss B crossent out (targets.take b2) (weights.take b2)
      true true).map .scalar

/-- The per-bucket loop of lines 1499-1520: for each bucket, run the
seq2seq model on the encoder and decoder inputs truncated to the bucket's
bounds, collect the outputs and final state, and compute the bucket's
loss; a loss `ValueError` aborts the whole call.  The abstract `seq2seq`
closes over `bucket[0]`, `encoder_states` and `feed_prev_p`, which the
source passes through unchanged; KL-returning models (tuple length 3,
lines 1517-1520) are outside the claims and not modelled. -/
def runBuckets {E D T O S : Type} (B : ℕ)
    (crossent : O → T → Fin B → ℚ) (enc : List E) (dec : List D)
    (targets : List T) (weights : List (Fin B → ℚ))
    (seq2seq : List E → List D → List O × S) (pel : Bool) :
    List (ℕ × ℕ) →
      Except BucketError (List (List O) × List (LossVal B) × List S)
  | [] => .ok ([], [], [])
  | bk :: rest =>
    let os := seq2seq (enc.take bk.1) (dec.take bk.2)
    match bucketLoss B crossent targets weights pel os.1 bk.2 with
    | .error e => .error (liftSeqErr e)
    | .ok l =>
      match runBuckets B crossent enc dec targets weights seq2seq pel rest with
      | .error e => .error e
      | .ok (outs, ls, sts) => .ok (os.1 :: outs, l :: ls, os.2 :: sts)

/-- Embedding of `model_with_buckets_states` (lines 1481-1521): the three
entry validations against the last bucket's bounds, then the per-bucket
loop.  Note the entry checks never look at `decoder_inputs`. -/
def model_with_buckets_states {E D T O S : Type} (B : ℕ)
    (crossent : O → T → Fin B → ℚ) (enc : List E) (dec : List D)
    (targets : List T) (weights : List (Fin B → ℚ))
    (buckets : List (ℕ × ℕ)) (seq2seq : List E → List D → List O × S)
    (pel : Bool) :
    Except BucketError (List (List O) × List (LossVal B) × List S) :=
  match buckets.getLast? with
  | none => .error .emptyBuckets
  | some last =>
    if enc.length < last.1 then .error (.encoderTooShort enc.length last.1)
    else if targets.length < last.2 then
      .error (.targetsTooShort targets.length last.2)
    else if weights.length < last.2 then
      .error (.weightsTooShort weights.length last.2)
    else runBuckets B crossent enc dec targets weights seq2seq pel buckets

/-- Embedding of `model_with_buckets` (lines 1523-1566): delegate to
`model_with_buckets_states` and drop the states. -/
def model_with_buckets {E D T O S : Type} (B : ℕ)
    (crossent : O → T → Fin B → ℚ) (enc : List E) (dec : List D)
    (targets : List T) (weights : List (Fin B → ℚ))
    (buckets : List (ℕ × ℕ)) (seq2seq : List E → List D → List O × S)
    (pel : Bool) :
    Except BucketError (List (List O) × List (LossVal B)) :=
  match model_with_buckets_states B crossent enc dec targets weights
      buckets seq2seq pel with
  | .error e => .error e
  | .ok (outs, ls, _) => .ok (outs, ls)

/-- `sequence_loss_by_example` succeeds whenever the three lists have
equal lengths. -/
theorem slbe_ok {L T : Type} (B : ℕ) (crossent : L → T → Fin B → ℚ)
    (logits : List L) (targets : List T) (weights : List (Fin B → ℚ))
    (aat : Bool) (ht : targets.length = logits.length)
    (hw : weights.length = logits.length) :
    ∃ lp, sequence_loss_by_example B crossent logits targets weights aat =
      .ok lp := by
  unfold sequence_loss_by_example
  rw [if_neg (by simp [ht, hw])]
  cases aat
  · exact ⟨_, rfl⟩
  · exact ⟨_, rfl⟩

/-- `sequence_loss` succeeds whenever the three lists have equal
lengths. -/
theorem sequence_loss_ok {L T : Type} (B : ℕ)
    (crossent : L → T → Fin B → ℚ) (logits : List L) (targets : List T)
    (weights : List (Fin B → ℚ)) (aat aab : Bool)
    (ht : targets.length = logits.length)
    (hw : weights.length = logits.length) :
    ∃ c, sequence_loss B crossent logits targets weights aat aab =
      .ok c := by
  obtain ⟨lp, h⟩ := slbe_ok B crossent logits targets weights aat ht hw
  unfold sequence_loss
  rw [h]
  cases aab
  · exact ⟨_, rfl⟩
  · exact ⟨_, rfl⟩

/-- The per-bucket loss succeeds when the truncated targets and weights
both match the output length. -/
theorem bucketLoss_ok {T O : Type} (B : ℕ)
    (crossent : O → T → Fin B → ℚ) (targets : List T)
    (weights : List (Fin B → ℚ)) (pel : Bool) (out : List O) (b2 : ℕ)
    (ht : (targets.take b2).length = out.length)
    (hw : (weights.take b2).length = out.length) :
    ∃ l, bucketLoss B crossent targets weights pel out b2 = .ok l := by
  unfold bucketLoss
  cases pel
  · obtain ⟨c, hc⟩ := sequence_loss_ok B crossent out (targets.take b2)
      (weights.take b2) true true ht hw
    exact ⟨.scalar c, by rw [hc]; rfl⟩
  · obtain ⟨lp, hc⟩ := slbe_ok B crossent out (targets.take b2)
      (weights.take b2) true ht hw
    exact ⟨.perExample lp, by rw [hc]; rfl⟩

/-- Success of the per-bucket loop: when every bucket's decoder bound is
within the supplied targets, weights and decoder inputs and the seq2seq
model emits one output per decoder input, the loop succeeds and each
bucket's output count equals its decoder bound. -/
theorem runBuckets_ok {E D T O S : Type} (B : ℕ)
    (crossent : O → T → Fin B → ℚ) (enc : List E) (dec : List D)
    (targets : List T) (weights : List (Fin B → ℚ))
    (seq2seq : List E → List D → List O × S) (pel : Bool)
    (hseq : ∀ e d, (seq2seq e d).1.length = d.length) :
    ∀ bks : List (ℕ × ℕ),
      (∀ bk ∈ bks, bk.2 ≤ targets.length ∧ bk.2 ≤ weights.length ∧
        bk.2 ≤ dec.length) →
      ∃ outs ls sts,
        runBuckets B crossent enc dec targets weights seq2seq pel bks =
          .ok (outs, ls, sts)
        ∧ outs.length = bks.length
        ∧ ∀ j, j < bks.length →
            (outs.getD j []).length = (bks.getD j (0, 0)).2
  | [], _ => ⟨[], [], [], rfl, rfl, by intro j hj; simp at hj⟩
  | bk :: rest, hall => by
    obtain ⟨hbt, hbw, hbd⟩ := hall bk (List.mem_cons_self bk rest)
    have houtlen : (seq2seq (enc.take bk.1) (dec.take bk.2)).1.length = bk.2 := by
      rw [hseq, List.length_take]
      omega
    obtain ⟨l, hl⟩ := bucketLoss_ok B crossent targets weights pel
      (seq2seq (enc.take bk.1) (dec.take bk.2)).1 bk.2
      (by rw [houtlen, List.length_take]; omega)
      (by rw [houtlen, List.length_take]; omega)
    obtain ⟨outs, ls, sts, hrec, hlen, hget⟩ :=
      runBuckets_ok B crossent enc dec targets weights seq2seq pel hseq rest
        (fun b hb => hall b (List.mem_cons_of_mem bk hb))
    refine ⟨(seq2seq (enc.take bk.1) (dec.take bk.2)).1 :: outs, l :: ls,
      (seq2seq (enc.take bk.1) (dec.take bk.2)).2 :: sts, ?_, ?_, ?_⟩
    · simp only [runBuckets]
      rw [hl, hrec]
    · simp [hlen]
    · intro j hj
      cases j with
      | zero => simpa using houtlen
      | succ j =>
        simpa using hget j (by simpa using hj)

/-- Claim C7: when the supplied sequences cover the last bucket's bounds,
the bucket list is nonempty with each bucket dominated by the last (the
spec's ascending-bucket discipline), the decoder inputs cover the last
bucket's decoder length (the spec's length invariant for one invocation),
and the seq2seq model emits exactly one output per decoder input — as
every model in this module does — `model_with_buckets_states` succeeds
and, for every bucket `j`, the output sequence for that bucket has length
`buckets[j].2`, the bucket's decoder length. -/
theorem C7_bucket_output_lengths {E D T O S : Type} (B : ℕ)
    (crossent : O → T → Fin B → ℚ) (enc : List E) (dec : List D)
    (targets : List T) (weights : List (Fin B → ℚ))
    (buckets : List (ℕ × ℕ)) (seq2seq : List E → List D → List O × S)
    (pel : Bool) (last : ℕ × ℕ) (hl : buckets.getLast? = some last)
    (henc : last.1 ≤ enc.length) (htg : last.2 ≤ targets.length)
    (hwt : last.2 ≤ weights.length) (hdec : last.2 ≤ dec.length)
    (hasc : ∀ bk ∈ buckets, bk.2 ≤ last.2)
    (hseq : ∀ e d, (seq2seq e d).1.length = d.length) :
    ∃ outs ls sts,
      model_with_buckets_states B crossent enc dec targets weights buckets
        seq2seq pel = .ok (outs, ls, sts)
      ∧ outs.length = buckets.length
      ∧ ∀ j, j < buckets.length →
          (outs.getD j []).length = (buckets.getD j (0, 0)).2 := by
  obtain ⟨outs, ls, sts, hrun, hlen, hget⟩ :=
    runBuckets_ok B crossent enc dec targets weights seq2seq pel hseq buckets
      (fun bk hb => ⟨le_trans (hasc bk hb) htg, le_trans (hasc bk hb) hwt,
        le_trans (hasc bk hb) hdec⟩)
  refine ⟨outs, ls, sts, ?_, hlen, hget⟩
  unfold model_with_buckets_states
  rw [hl]
  dsimp only
  rw [if_neg (by omega), if_neg (by omega), if_neg (by omega)]
  exact hrun

/-- Witness for C7: two buckets `(1,1)` and `(2,2)`, batch size 1, a
seq2seq model that echoes its decoder inputs, and sequences of length 2
everywhere. -/
theorem C7_bucket_output_lengths_witness :
    ([(1, 1), (2, 2)] : List (ℕ × ℕ)).getLast? = some (2, 2)
    ∧ ∃ outs ls sts,
        model_with_buckets_states 1 (fun _ _ _ => (0 : ℚ)) [5, 6] [7, 8]
          [1, 2] [fun _ => 1, fun _ => 1] [(1, 1), (2, 2)]
          (fun _ d => (d, ())) false = .ok (outs, ls, sts)
        ∧ outs.length = ([(1, 1), (2, 2)] : List (ℕ × ℕ)).length
        ∧ ∀ j, j < ([(1, 1), (2, 2)] : List (ℕ × ℕ)).length →
            (outs.getD j []).length =
              (([(1, 1), (2, 2)] : List (ℕ × ℕ)).getD j (0, 0)).2 :=
  ⟨rfl, C7_bucket_output_lengths 1 (fun _ _ _ => (0 : ℚ)) [5, 6] [7, 8]
    [1, 2] [fun _ => 1, fun _ => 1] [(1, 1), (2, 2)] (fun _ d => (d, ()))
    false (2, 2) rfl (by decide) (by decide) (by decide) (by decide)
    (by decide) (fun _ _ => rfl)⟩

/-- Whether an error is one of the entry validations of
`model_with_buckets_states` (the `buckets[-1]` lookup and the three
length checks of lines 1485-1493), as opposed to an error raised later,
inside the per-bucket loop. -/
def isEntryError : BucketError → Bool
  | .emptyBuckets => true
  | .encoderTooShort _ _ => true
  | .targetsTooShort _ _ => true
  | .weightsTooShort _ _ => true
  | .lossLengthMismatch _ _ _ => false

/-- The per-bucket loop only ever fails with the loss length-mismatch
error, never with an entry-validation error. -/
theorem runBuckets_no_entry_error {E D T O S : Type} (B : ℕ)
    (crossent : O → T → Fin B → ℚ) (enc : List E) (dec : List D)
    (targets : List T) (weights : List (Fin B → ℚ))
    (seq2seq : List E → List D → List O × S) (pel : Bool) :
    ∀ (bks : List (ℕ × ℕ)) (e : BucketError),
      runBuckets B crossent enc dec targets weights seq2seq pel bks =
        .error e → isEntryError e = false
  | [], e, h => by simp [runBuckets] at h
  | bk :: rest, e, h => by
    simp only [runBuckets] at h
    cases hb : bucketLoss B crossent targets weights pel
        (seq2seq (enc.take bk.1) (dec.take bk.2)).1 bk.2 with
    | error e2 =>
      rw [hb] at h
      cases h' : h
      cases e2 with
      | lengthMismatch a b c => injection h with h; rw [← h]; rfl
    | ok l =>
      rw [hb] at h
      cases hr : runBuckets B crossent enc dec targets weights seq2seq pel
          rest with
      | error e3 =>
        rw [hr] at h
        injection h with h
        rw [h] at hr
        exact runBuckets_no_entry_error B crossent enc dec targets weights
          seq2seq pel rest e hr
      | ok triple =>
        rw [hr] at h
        obtain ⟨outs, ls, sts⟩ := triple
        simp at h

/-- Claim C10: `model_with_buckets_states` raises an entry-validation
error exactly when the encoder inputs, targets or weights are shorter
than the last bucket's corresponding bound — the decoder inputs `dec` are
universally quantified and absent from the right-hand side, so no
decoder-inputs list, however short, can trigger a configuration error at
entry. -/
theorem C10_entry_validation_ignores_decoder {E D T O S : Type} (B : ℕ)
    (crossent : O → T → Fin B → ℚ) (enc : List E) (dec : List D)
    (targets : List T) (weights : List (Fin B → ℚ))
    (buckets : List (ℕ × ℕ)) (seq2seq : List E → List D → List O × S)
    (pel : Bool) (last : ℕ × ℕ) (hl : buckets.getLast? = some last) :
    (∃ e, model_with_buckets_states B crossent enc dec targets weights
        buckets seq2seq pel = .error e ∧ isEntryError e = true)
      ↔ (enc.length < last.1 ∨ targets.length < last.2 ∨
          weights.length < last.2) := by
  unfold model_with_buckets_states
  rw [hl]
  dsimp only
  by_cases h1 : enc.length < last.1
  · rw [if_pos h1]
    exact ⟨fun _ => Or.inl h1, fun _ => ⟨_, rfl, rfl⟩⟩
  · rw [if_neg h1]
    by_cases h2 : targets.length < last.2
    · rw [if_pos h2]
      exact ⟨fun _ => Or.inr (Or.inl h2), fun _ => ⟨_, rfl, rfl⟩⟩
    · rw [if_neg h2]
      by_cases h3 : weights.length < last.2
      · rw [if_pos h3]
        exact ⟨fun _ => Or.inr (Or.inr h3), fun _ => ⟨_, rfl, rfl⟩⟩
      · rw [if_neg h3]
        constructor
        · rintro ⟨e, he, hent⟩
          have hne := runBuckets_no_entry_error B crossent enc dec targets
            weights seq2seq pel buckets e he
          rw [hent] at hne
          cases hne
        · rintro (hc | hc | hc)
          · exact absurd hc h1
          · exact absurd hc h2
          · exact absurd hc h3

/-- Witness for C10: one bucket `(2, 2)`, decoder inputs `[7]` shorter
than the bucket's decoder length 2, while encoder inputs, targets and
weights are long enough: the equivalence shows no entry error is
raised. -/
theorem C10_entry_validation_witness :
    ([(2, 2)] : List (ℕ × ℕ)).getLast? = some (2, 2)
    ∧ ((∃ e, model_with_buckets_states 1 (fun _ _ _ => (0 : ℚ)) [5, 6]
          ([7] : List ℕ) [1, 2] [fun _ => 1, fun _ => 1] [(2, 2)]
          (fun _ d => (d, ())) false = .error e ∧ isEntryError e = true)
        ↔ (([5, 6] : List ℕ).length < 2 ∨ ([1, 2] : List ℕ).length < 2 ∨
            ([fun _ => (1 : ℚ), fun _ => 1] : List (Fin 1 → ℚ)).length < 2)) :=
  ⟨rfl, C10_entry_validation_ignores_decoder 1 (fun _ _ _ => (0 : ℚ))
    [5, 6] [7] [1, 2] [fun _ => 1, fun _ => 1] [(2, 2)]
    (fun _ d => (d, ())) false (2, 2) rfl⟩

/-! ### The fatal checks of `attention_decoder` (seq2seq.py lines
    810-816 and 947-957) -/

/-- Static-shape arguments of `attention_decoder` that its `ValueError`s
depend on: the statically known width of each decoder input (`None` when
the width cannot be inferred, line 955-957), the number of attention
heads, and the statically known feature dimension
`attention_states.get_shape()[2]`.  The `output_size = None` default of
line 817-818 never raises and is omitted. -/
structure AttnDecoderArgs where
  inputWidths : List (Option ℕ)
  numHeads : ℕ
  attnFeatureDim : Option ℕ

/-- The `ValueError`s of `attention_decoder`.  `unknownInputWidth i`
records the loop step `i` at which the width check of lines 955-957
fires; `i` decoding steps have already fully executed before it. -/
inductive AttnDecoderError where
  | noInputs : AttnDecoderError
  | tooFewHeads : AttnDecoderError
  | unknownAttnDim : AttnDecoderError
  | unknownInputWidth (step : ℕ) : AttnDecoderError
deriving DecidableEq

/-- How many decoding steps completed before the error was raised: the
three pre-loop checks fire before any step, while the width check fires
at its loop step. -/
def attnErrorStepsCompleted : AttnDecoderError → ℕ
  | .unknownInputWidth i => i
  | _ => 0

/-- The per-step loop of `attention_decoder` (lines 947-1007) at the
static-shape level: step `i` first infers the current input's width and
raises when it is unknown (lines 955-957), then runs the merge, cell and
attention for that step; the result counts the outputs produced (one per
decoder input, line 1007). -/
def attn_decoder_loop : List (Option ℕ) → ℕ → Except AttnDecoderError ℕ
  | [], i => .ok i
  | w :: rest, i =>
    match w with
    | none => .error (.unknownInputWidth i)
    | some _ => attn_decoder_loop rest (i + 1)

/-- Embedding of the validation behaviour of `attention_decoder`: the
three pre-loop checks of lines 810-816 in source order (empty
`decoder_inputs`, `num_heads < 1`, unknown `attention_states` feature
dimension), then the per-step loop with its in-loop width check. -/
def attention_decoder_check (a : AttnDecoderArgs) :
    Except AttnDecoderError ℕ :=
  if a.inputWidths.isEmpty then .error .noInputs
  else if a.numHeads < 1 then .error .tooFewHeads
  else if a.attnFeatureDim.isNone then .error .unknownAttnDim
  else attn_decoder_loop a.inputWidths 0

/-- Claim C6 is false as stated: with decoder inputs `[some 3, none]`
(step 0's width known, step 1's width not inferable), one head and a
known feature dimension, `attention_decoder` does raise the
unknown-input-width error, but only at loop step 1 — after one full
decoding step has executed — not before loop entry as the claim asserts
for all four conditions. -/
theorem C6_width_check_inside_loop :
    attention_decoder_check ⟨[some 3, none], 1, some 4⟩ =
      .error (.unknownInputWidth 1)
    ∧ attnErrorStepsCompleted (.unknownInputWidth 1) ≠ 0 := by
  exact ⟨rfl, by decide⟩

/-- The loop fires at the first input of unknown width (`findIdx?` with
the loop's step counter as start index), and otherwise counts all
inputs. -/
theorem attn_decoder_loop_eq :
    ∀ (ws : List (Option ℕ)) (i : ℕ),
      attn_decoder_loop ws i =
        match ws.findIdx? Option.isNone i with
        | some j => .error (.unknownInputWidth j)
        | none => .ok (i + ws.length)
  | [], i => by simp [attn_decoder_loop, List.findIdx?]
  | w :: rest, i => by
    cases w with
    | none => simp [attn_decoder_loop, List.findIdx?_cons]
    | some x =>
      rw [attn_decoder_loop, attn_decoder_loop_eq rest (i + 1)]
      simp only [List.findIdx?_cons, Option.isNone_some, Bool.false_eq_true,
        if_false, List.length_cons]
      cases h : rest.findIdx? Option.isNone (i + 1) with
      | none =>
        have hadd : i + 1 + rest.length = i + (rest.length + 1) := by omega
        rw [hadd]
      | some j => rfl

/-- Claim C6 (amended): `attention_decoder` raises a fatal error in
exactly the four claimed cases — empty decoder inputs, fewer than one
head, statically unknown attention feature dimension, or a decoder input
of statically unknown width — and in no others; the first three are
checked before loop entry, in source order, while the width condition is
checked inside the per-step loop and raises at the first step whose input
width is not inferable, after the earlier steps have already run. -/
theorem C6_error_conditions_amended (a : AttnDecoderArgs) :
    attention_decoder_check a =
      if a.inputWidths.isEmpty then .error .noInputs
      else if a.numHeads < 1 then .error .tooFewHeads
      else if a.attnFeatureDim.isNone then .error .unknownAttnDim
      else
        match a.inputWidths.findIdx? Option.isNone with
        | some j => .error (.unknownInputWidth j)
        | none => .ok a.inputWidths.length := by
  unfold attention_decoder_check
  rw [attn_decoder_loop_eq a.inputWidths 0]
  simp
